import Mathlib

/-!
Shallow embedding of `src/Code/surprise/biclustering/bicluster.py`: the
`Bicluster` value object (geometry, equality, hashing) and the
`Biclustering` collection operations (deduplication, p-value filtering and
the `run_constant_freq_column` significance engine).  Real-number
computations are modelled exactly over `ℚ`; Python exceptions are modelled
with `Except PyErr`.
-/

/-- Decidable equality for `Except`, used to evaluate embedded fallible
operations on concrete inputs. -/
instance {ε α : Type _} [DecidableEq ε] [DecidableEq α] : DecidableEq (Except ε α) := fun x y =>
  match x, y with
  | .ok a, .ok b =>
    if h : a = b then .isTrue (congrArg Except.ok h)
    else .isFalse (fun hc => h (Except.ok.inj hc))
  | .ok _, .error _ => .isFalse (fun hc => Except.noConfusion hc)
  | .error _, .ok _ => .isFalse (fun hc => Except.noConfusion hc)
  | .error e, .error f =>
    if h : e = f then .isTrue (congrArg Except.error h)
    else .isFalse (fun hc => h (Except.error.inj hc))

/-- Python exception kinds raised by the embedded code paths. -/
inductive PyErr
  | valueError
  | attributeError
  | indexError
  | typeError
deriving DecidableEq

/-- A bicluster (`Bicluster.__init__`, lines 20-42): row and column index
arrays, an optional data submatrix and an optional p-value.  `data = none`
models an object whose `data` attribute was never assigned (the constructor
only assigns it when a matrix is supplied); `pvalue = none` models
`pvalue is None`. -/
structure Bicluster where
  rows : List Nat
  cols : List Nat
  data : Option (List (List Int)) := none
  pvalue : Option ℚ := none
deriving DecidableEq

/-- `self.area = len(self.rows) * len(self.cols)` (line 42). -/
def Bicluster.area (b : Bicluster) : Nat := b.rows.length * b.cols.length

/-- `np.intersect1d`: the sorted unique values common to both arrays. -/
def intersect1d (a b : List Nat) : List Nat :=
  List.insertionSort (fun x y => x ≤ y) (a.dedup.filter (fun x => decide (x ∈ b)))

/-- `np.union1d`: the sorted unique values of the concatenation. -/
def union1d (a b : List Nat) : List Nat :=
  List.insertionSort (fun x y => x ≤ y) ((a ++ b).dedup)

/-- `Bicluster.intersection` (lines 47-51): per-axis set intersection; the
result carries no data and no p-value. -/
def Bicluster.intersection (a b : Bicluster) : Bicluster :=
  { rows := intersect1d a.rows b.rows, cols := intersect1d a.cols b.cols }

/-- `Bicluster.union` (lines 53-56): per-axis set union. -/
def Bicluster.union (a b : Bicluster) : Bicluster :=
  { rows := union1d a.rows b.rows, cols := union1d a.cols b.cols }

/-- `Bicluster.overlap` (lines 58-60).  When `min_area = 0` Python raises
`ZeroDivisionError`; the claims only concern positive areas, where rational
division agrees with the Python float computation. -/
def Bicluster.overlap (a b : Bicluster) : ℚ :=
  ((a.intersection b).area : ℚ) / ((min a.area b.area : ℕ) : ℚ)

/-- `Bicluster.contained_in` (lines 62-71); `rows_set`/`cols_set` are the
constructor caches `set(self.rows)`/`set(self.cols)`, modelled by
`List.toFinset`. -/
def Bicluster.contained_in (a b : Bicluster) : Int :=
  if a.area < b.area ∧
      (a.rows.toFinset ∩ b.rows.toFinset).card * (a.cols.toFinset ∩ b.cols.toFinset).card
        = a.area
  then 1 else -1

/-- `Bicluster.__eq__` (lines 79-80): order-independent set comparison. -/
def pyEq (a b : Bicluster) : Bool :=
  a.rows.toFinset == b.rows.toFinset && a.cols.toFinset == b.cols.toFinset

/-- `str` of a one-dimensional integer numpy array, e.g. "[1 0]" (exact for
the small arrays considered here; numpy elides very long arrays). -/
def npStr (l : List Nat) : String :=
  "[" ++ String.intercalate " " (l.map toString) ++ "]"

/-- The key hashed by `Bicluster.__hash__` (lines 82-83), namely the tuple
`('rows', str(self.rows), 'cols', str(self.cols))`.  Python hashing of
distinct tuples is modelled as injective (hash collisions disregarded). -/
def hashKey (b : Bicluster) : String × String × String × String :=
  ("rows", npStr b.rows, "cols", npStr b.cols)

/-- Collision test of a Python `set`: two elements collapse exactly when
their hashes match and `__eq__` holds on them. -/
def pySetDup (a b : Bicluster) : Bool := hashKey a == hashKey b && pyEq a b

/-- `Biclustering.remove_duplicates` (lines 97-98): `list(set(...))`,
keeping the first representative of each `set`-duplicate class. -/
def remove_duplicates (bs : List Bicluster) : List Bicluster :=
  bs.foldl (fun acc b => if acc.any (fun x => pySetDup x b) then acc else acc ++ [b]) []

/-- `Biclustering.remove_bypvalue` (lines 100-103): the comparison
`bic.pvalue < pv` raises `TypeError` when `pvalue` is `None`. -/
def remove_bypvalue : List Bicluster → ℚ → Except PyErr (List Bicluster)
  | [], _ => .ok []
  | b :: rest, pv =>
    match b.pvalue with
    | none => .error .typeError
    | some q =>
      match remove_bypvalue rest pv with
      | .error e => .error e
      | .ok tail => .ok (if q < pv then b :: tail else tail)

/-- The two dtype-tagged input shapes `Bicluster.__init__` distinguishes,
plus an ndarray of any other dtype and a non-ndarray object. -/
inductive RCInput
  | boolArr (mask : List Bool)
  | intArr (idx : List Nat)
  | otherArr
  | nonArray
deriving DecidableEq

/-- `np.nonzero(mask)[0]`: the indices at which a boolean mask is true. -/
def nonzeroIdx (mask : List Bool) : List Nat :=
  (List.range mask.length).filter (fun i => mask.getD i false)

/-- The shape test of line 37: `data.shape == (n, m) or (len(data) == 0 and
n == 0)`, on a list-of-rows matrix. -/
def shapeOk (n m : Nat) : Option (List (List Int)) → Bool
  | none => true
  | some d => (d.length == n && d.all (fun r => r.length == m)) || (d.length == 0 && n == 0)

/-- Lines 34-42 of `__init__`: the data shape check and field assignment
performed after rows and cols are selected. -/
def finishInit (rows cols : List Nat) (data : Option (List (List Int))) :
    Except PyErr Bicluster :=
  match data with
  | none => .ok { rows := rows, cols := cols }
  | some d =>
    if shapeOk rows.length cols.length (some d)
    then .ok { rows := rows, cols := cols, data := some d }
    else .error .valueError

/-- `Bicluster.__init__` (lines 20-42) with Python evaluation order: the
first condition checks `isinstance(rows, ndarray)`, `rows.dtype == bool`
and then `cols.dtype == bool` (an `AttributeError` when `cols` is not an
array); the `elif` checks `isinstance(cols, ndarray)` and then
`rows.dtype` (an `AttributeError` when `rows` is not an array); any other
combination raises `ValueError`. -/
def mkBicluster (rows cols : RCInput) (data : Option (List (List Int))) :
    Except PyErr Bicluster :=
  match rows, cols with
  | .boolArr br, .boolArr bc => finishInit (nonzeroIdx br) (nonzeroIdx bc) data
  | .boolArr _, .nonArray => .error .attributeError
  | .intArr ir, .intArr ic => finishInit ir ic data
  | .nonArray, .nonArray => .error .valueError
  | .nonArray, _ => .error .attributeError
  | _, _ => .error .valueError

/-- Column `j` of a row-major matrix. -/
def colVals (mat : List (List Int)) (j : Nat) : List Int :=
  mat.map (fun r => r.getD j 0)

/-- One entry of the per-column frequency table of
`run_constant_freq_column` (lines 118-133): the count of label `v` in the
column, divided by the accumulated in-alphabet count (or by `n_rows` when
`missing_correction` is set) unless that denominator is zero, in which case
the raw count is kept, exactly as in the source. -/
def freqEntry (mcol : List Int) (labels : List Int) (nRows : Nat) (mc : Bool) (v : Int) : ℚ :=
  let cnt : Nat := mcol.count v
  let denom : Nat := if mc then nRows else (labels.map (fun u => mcol.count u)).sum
  if denom ≠ 0 then (cnt : ℚ) / (denom : ℚ) else (cnt : ℚ)

/-- The frequency table `freq_cols` (lines 117-133) as a function of the
column index and the label position. -/
def freq_cols (mat : List (List Int)) (labels : List Int) (mc : Bool) (col i : Nat) : ℚ :=
  freqEntry (colVals mat col) labels mat.length mc (labels.getD i 0)

/-- The joint probability loop of lines 135-139, accumulating over
`bic.cols` with the running data-column index `j`, in Python evaluation
order: `bic.data` (AttributeError when unset), `bic.data[0]` and
`bic.data[0][j]` (IndexError), `labels.index(...)` (ValueError when the
value is not a label), then `freq_cols[col, idx]` (IndexError when `col`
is out of range). -/
def jointPAux (mat : List (List Int)) (labels : List Int) (mc : Bool)
    (data : Option (List (List Int))) : List Nat → Nat → ℚ → Except PyErr ℚ
  | [], _, p => .ok p
  | col :: rest, j, p =>
    match data with
    | none => .error .attributeError
    | some d =>
      match d.head? with
      | none => .error .indexError
      | some row0 =>
        match row0.get? j with
        | none => .error .indexError
        | some v =>
          match labels.findIdx? (fun u => u == v) with
          | none => .error .valueError
          | some i =>
            if col < (mat.headD []).length then
              jointPAux mat labels mc data rest (j + 1) (p * freq_cols mat labels mc col i)
            else .error .indexError

/-- The joint per-column label probability `p` of one bicluster. -/
def jointP (mat : List (List Int)) (labels : List Int) (mc : Bool) (bic : Bicluster) :
    Except PyErr ℚ :=
  jointPAux mat labels mc bic.data bic.cols 0 1

/-- `n.choose k * p ^ k * (1 - p) ^ (n - k)`: the binomial mass function. -/
def binomPmf (n k : Nat) (p : ℚ) : ℚ := (n.choose k : ℚ) * p ^ k * (1 - p) ^ (n - k)

/-- `scipy.stats.binom.sf(k, n, p)`: the survival function
`P(X > k)`, exact over `ℚ`. -/
def binomSf (k n : Nat) (p : ℚ) : ℚ := ∑ i in Finset.Icc (k + 1) n, binomPmf n i p

/-- `Biclustering.run_constant_freq_column` (lines 112-141): score every
member in order, assigning `pvalue = binom.sf(len(rows), n_rows, p)`; the
first Python exception aborts the run. -/
def run_constant_freq_column (mat : List (List Int)) (labels : List Int) (mc : Bool) :
    List Bicluster → Except PyErr (List Bicluster)
  | [] => .ok []
  | bic :: rest =>
    match jointP mat labels mc bic with
    | .error e => .error e
    | .ok p =>
      match run_constant_freq_column mat labels mc rest with
      | .error e => .error e
      | .ok rest2 =>
        .ok ({ bic with pvalue := some (binomSf bic.rows.length mat.length p) } :: rest2)

/-- Modelled from the spec (section 8, claim comparison only): the binomial
tail probability `P(X >= k)` of observing at least `k` successes in `n`
trials at success probability `p`. -/
def specBinomTailGe (k n : Nat) (p : ℚ) : ℚ := ∑ i in Finset.Icc k n, binomPmf n i p

/-- The concrete scenario matrix of spec section 8. -/
def mat4 : List (List Int) := [[1, 0], [1, 0], [0, 1], [1, 1]]

/-- The scenario bicluster: rows {0,1}, column {0}, representative label 1. -/
def bicScen : Bicluster := { rows := [0, 1], cols := [0], data := some [[1], [1]] }

/-! Helper lemmas about the embedded set operations. -/

lemma intersect1d_toFinset (a b : List Nat) :
    (intersect1d a b).toFinset = a.toFinset ∩ b.toFinset := by
  ext x
  simp [intersect1d, (List.perm_insertionSort _ _).mem_iff, List.mem_filter]

lemma intersect1d_length (a b : List Nat) :
    (intersect1d a b).length = (a.toFinset ∩ b.toFinset).card := by
  have hnd : (a.dedup.filter (fun x => decide (x ∈ b))).Nodup := a.nodup_dedup.filter _
  rw [intersect1d, List.length_insertionSort, ← List.toFinset_card_of_nodup hnd]
  congr 1
  ext x
  simp [List.mem_filter]

lemma union1d_toFinset (a b : List Nat) :
    (union1d a b).toFinset = a.toFinset ∪ b.toFinset := by
  ext x
  simp [union1d, (List.perm_insertionSort _ _).mem_iff]

lemma union1d_length (a b : List Nat) :
    (union1d a b).length = (a.toFinset ∪ b.toFinset).card := by
  have hnd : ((a ++ b).dedup).Nodup := List.nodup_dedup _
  rw [union1d, List.length_insertionSort, ← List.toFinset_card_of_nodup hnd]
  congr 1
  ext x
  simp

lemma intersection_area (a b : Bicluster) :
    (a.intersection b).area =
      (a.rows.toFinset ∩ b.rows.toFinset).card * (a.cols.toFinset ∩ b.cols.toFinset).card := by
  simp [Bicluster.intersection, Bicluster.area, intersect1d_length]

lemma union_area (a b : Bicluster) :
    (a.union b).area =
      (a.rows.toFinset ∪ b.rows.toFinset).card * (a.cols.toFinset ∪ b.cols.toFinset).card := by
  simp [Bicluster.union, Bicluster.area, union1d_length]

lemma interArea_le_min (a b : Bicluster) : (a.intersection b).area ≤ min a.area b.area := by
  rw [intersection_area]
  refine le_min ?_ ?_
  · exact Nat.mul_le_mul
      (le_trans (Finset.card_le_card Finset.inter_subset_left) (List.toFinset_card_le _))
      (le_trans (Finset.card_le_card Finset.inter_subset_left) (List.toFinset_card_le _))
  · exact Nat.mul_le_mul
      (le_trans (Finset.card_le_card Finset.inter_subset_right) (List.toFinset_card_le _))
      (le_trans (Finset.card_le_card Finset.inter_subset_right) (List.toFinset_card_le _))

/-! The claims. -/

/-- C1: two biclusters whose row and column sets agree while the stored
index order differs satisfy `__eq__`, but `__hash__` hashes the raw array
strings, so their hash keys differ: the equal-objects-equal-hashes
contract fails on the code at rows `[0, 1]` versus `[1, 0]`. -/
theorem C1_eq_hash_contract_fails :
    pyEq { rows := [0, 1], cols := [0] } { rows := [1, 0], cols := [0] } = true ∧
    hashKey { rows := [0, 1], cols := [0] } ≠ hashKey { rows := [1, 0], cols := [0] } := by
  exact ⟨by decide, by decide⟩

/-- Two set-equal biclusters with differently ordered index arrays. -/
def bicA : Bicluster := { rows := [0, 1], cols := [0] }

/-- Reordering of `bicA`. -/
def bicB : Bicluster := { rows := [1, 0], cols := [0] }

/-- C2: `remove_duplicates` deduplicates through a Python `set`, which
buckets by hash; the order-dependent hash keys of `bicA` and `bicB`
differ, so the two equal members are both kept instead of collapsing to
one. -/
theorem C2_dedup_misses_reordered_duplicate :
    pyEq bicA bicB = true ∧ remove_duplicates [bicA, bicB] = [bicA, bicB] := by
  exact ⟨by decide, by decide⟩

/-- C5: `contained_in` returns 1 exactly when the callee has strictly
smaller area than the argument and the intersection area equals the
callee's area, returns -1 in every other case, and in particular reports a
bicluster as not contained in itself. -/
theorem C5_contained_in_strict (a b : Bicluster) :
    (a.contained_in b = 1 ↔ a.area < b.area ∧ (a.intersection b).area = a.area) ∧
    (a.contained_in b = 1 ∨ a.contained_in b = -1) ∧
    a.contained_in a = -1 := by
  have harea := intersection_area a b
  refine ⟨?_, ?_, ?_⟩
  · rw [Bicluster.contained_in, harea]
    split_ifs with h
    · simp [h]
    · constructor
      · intro hc
        exact absurd hc (by decide)
      · intro hc
        exact absurd hc h
  · rw [Bicluster.contained_in]
    split_ifs
    · exact Or.inl rfl
    · exact Or.inr rfl
  · rw [Bicluster.contained_in, if_neg]
    rintro ⟨h1, -⟩
    exact lt_irrefl _ h1

/-- The predicate of the p-value filter: `pvalue < pv` on an annotated
bicluster. -/
def pvFilter (pv : ℚ) (b : Bicluster) : Bool :=
  match b.pvalue with
  | some q => decide (q < pv)
  | none => false

/-- C6: `remove_bypvalue` keeps exactly the members whose p-value is
strictly below the threshold, and raises `TypeError` as soon as a member
with unset (`None`) p-value is encountered. -/
theorem C6_remove_bypvalue_strict (bs : List Bicluster) (pv : ℚ) :
    ((∀ b ∈ bs, b.pvalue ≠ none) →
      remove_bypvalue bs pv = .ok (bs.filter (pvFilter pv))) ∧
    ((∃ b ∈ bs, b.pvalue = none) → remove_bypvalue bs pv = .error PyErr.typeError) := by
  induction bs with
  | nil =>
    refine ⟨fun _ => rfl, ?_⟩
    rintro ⟨b, hb, -⟩
    cases hb
  | cons b rest ih =>
    constructor
    · intro h
      have hb := h b (by simp)
      cases hpv : b.pvalue with
      | none => exact absurd hpv hb
      | some q =>
        have hrest := ih.1 (fun x hx => h x (by simp [hx]))
        by_cases hq : q < pv <;>
          simp [remove_bypvalue, hpv, hrest, List.filter_cons, pvFilter, hq]
    · rintro ⟨x, hx, hxnone⟩
      rcases List.mem_cons.mp hx with rfl | hx2
      · simp [remove_bypvalue, hxnone]
      · cases hpv : b.pvalue with
        | none => simp [remove_bypvalue, hpv]
        | some q =>
          have htail := ih.2 ⟨x, hx2, hxnone⟩
          simp [remove_bypvalue, hpv, htail]

/-- A bicluster annotated with a p-value, for witnesses. -/
def bicPv : Bicluster := { rows := [0], cols := [0], pvalue := some (1 / 4) }

/-- A bicluster with unset p-value, for witnesses. -/
def bicNoPv : Bicluster := { rows := [1], cols := [0] }

/-- C6 witness: the theorem applied to concrete one-member collections. -/
theorem C6_remove_bypvalue_strict_witness :
    remove_bypvalue [bicPv] (1 / 2) = .ok ([bicPv].filter (pvFilter (1 / 2))) ∧
    remove_bypvalue [bicNoPv] (1 / 2) = .error PyErr.typeError := by
  constructor
  · exact (C6_remove_bypvalue_strict [bicPv] (1 / 2)).1 (by decide)
  · exact (C6_remove_bypvalue_strict [bicNoPv] (1 / 2)).2 ⟨bicNoPv, by simp, rfl⟩

/-- C7: `overlap` is the intersection area over the smaller area, lies in
`[0, 1]` for positive-area biclusters, and a bicluster (with duplicate-free
index arrays, the documented data-model invariant) fully overlaps itself. -/
theorem C7_overlap_bounds (a b : Bicluster)
    (ha : 0 < a.area) (hb : 0 < b.area) (har : a.rows.Nodup) (hac : a.cols.Nodup) :
    a.overlap b = ((a.intersection b).area : ℚ) / ((min a.area b.area : ℕ) : ℚ) ∧
    0 ≤ a.overlap b ∧ a.overlap b ≤ 1 ∧ a.overlap a = 1 := by
  have hmin : (0 : ℚ) < ((min a.area b.area : ℕ) : ℚ) := by
    exact_mod_cast lt_min ha hb
  refine ⟨rfl, ?_, ?_, ?_⟩
  · exact div_nonneg (by positivity) (le_of_lt hmin)
  · rw [Bicluster.overlap, div_le_one hmin]
    exact_mod_cast interArea_le_min a b
  · rw [Bicluster.overlap]
    have h1 : (a.intersection a).area = a.area := by
      rw [intersection_area]
      simp [List.toFinset_card_of_nodup har, List.toFinset_card_of_nodup hac, Bicluster.area]
    rw [h1, min_self]
    have hane : ((a.area : ℕ) : ℚ) ≠ 0 := by
      exact_mod_cast Nat.pos_iff_ne_zero.mp ha
    exact div_self hane

/-- C7 witness: the theorem applied at two concrete biclusters. -/
theorem C7_overlap_bounds_witness :
    bicA.overlap bicPv = ((bicA.intersection bicPv).area : ℚ) /
      ((min bicA.area bicPv.area : ℕ) : ℚ) ∧
    0 ≤ bicA.overlap bicPv ∧ bicA.overlap bicPv ≤ 1 ∧ bicA.overlap bicA = 1 :=
  C7_overlap_bounds bicA bicPv (by decide) (by decide) (by decide) (by decide)

/-- C8: intersection area is at most the smaller area, union area is at
least the larger area (given the duplicate-free index invariant), and both
operations are commutative under the bicluster equality contract. -/
theorem C8_inter_union_algebra (a b : Bicluster)
    (har : a.rows.Nodup) (hac : a.cols.Nodup) (hbr : b.rows.Nodup) (hbc : b.cols.Nodup) :
    (a.intersection b).area ≤ min a.area b.area ∧
    max a.area b.area ≤ (a.union b).area ∧
    pyEq (a.intersection b) (b.intersection a) = true ∧
    pyEq (a.union b) (b.union a) = true := by
  refine ⟨interArea_le_min a b, ?_, ?_, ?_⟩
  · rw [union_area]
    refine max_le ?_ ?_
    · have h1 : a.rows.length ≤ (a.rows.toFinset ∪ b.rows.toFinset).card := by
        rw [← List.toFinset_card_of_nodup har]
        exact Finset.card_le_card Finset.subset_union_left
      have h2 : a.cols.length ≤ (a.cols.toFinset ∪ b.cols.toFinset).card := by
        rw [← List.toFinset_card_of_nodup hac]
        exact Finset.card_le_card Finset.subset_union_left
      exact Nat.mul_le_mul h1 h2
    · have h1 : b.rows.length ≤ (a.rows.toFinset ∪ b.rows.toFinset).card := by
        rw [← List.toFinset_card_of_nodup hbr]
        exact Finset.card_le_card Finset.subset_union_right
      have h2 : b.cols.length ≤ (a.cols.toFinset ∪ b.cols.toFinset).card := by
        rw [← List.toFinset_card_of_nodup hbc]
        exact Finset.card_le_card Finset.subset_union_right
      exact Nat.mul_le_mul h1 h2
  · have h1 : (a.intersection b).rows.toFinset = (b.intersection a).rows.toFinset := by
      simp [Bicluster.intersection, intersect1d_toFinset, Finset.inter_comm]
    have h2 : (a.intersection b).cols.toFinset = (b.intersection a).cols.toFinset := by
      simp [Bicluster.intersection, intersect1d_toFinset, Finset.inter_comm]
    simp [pyEq, h1, h2]
  · have h1 : (a.union b).rows.toFinset = (b.union a).rows.toFinset := by
      simp [Bicluster.union, union1d_toFinset, Finset.union_comm]
    have h2 : (a.union b).cols.toFinset = (b.union a).cols.toFinset := by
      simp [Bicluster.union, union1d_toFinset, Finset.union_comm]
    simp [pyEq, h1, h2]

/-- C8 witness: the theorem applied at two concrete biclusters. -/
theorem C8_inter_union_algebra_witness :
    (bicA.intersection bicPv).area ≤ min bicA.area bicPv.area ∧
    max bicA.area bicPv.area ≤ (bicA.union bicPv).area ∧
    pyEq (bicA.intersection bicPv) (bicPv.intersection bicA) = true ∧
    pyEq (bicA.union bicPv) (bicPv.union bicA) = true :=
  C8_inter_union_algebra bicA bicPv (by decide) (by decide) (by decide) (by decide)

lemma sum_counts_cons (labels : List Int) (h : labels.Nodup) (x : Int) (xs : List Int) :
    (labels.map (fun u => List.count u (x :: xs))).sum =
      (labels.map (fun u => List.count u xs)).sum + (if x ∈ labels then 1 else 0) := by
  induction labels with
  | nil => simp
  | cons a ls ih =>
    have hnd := List.nodup_cons.mp h
    rw [List.map_cons, List.map_cons, List.sum_cons, List.sum_cons, ih hnd.2]
    have hcc : List.count a (x :: xs) = List.count a xs + (if x = a then 1 else 0) := by
      simp [List.count_cons]
    rw [hcc]
    have key : (if x = a then 1 else 0) + (if x ∈ ls then 1 else 0) =
        (if x ∈ a :: ls then (1 : ℕ) else 0) := by
      by_cases hxa : x = a
      · have hxls : x ∉ ls := by
          rw [hxa]
          exact hnd.1
        simp [hxa, hxls, hnd.1, List.mem_cons]
      · have hax : ¬(a = x) := by
          intro hc
          exact hxa hc.symm
        simp [hax, hxa, List.mem_cons]
    rw [← key]
    ring

lemma sum_counts_eq_length_filter (labels : List Int) (h : labels.Nodup) (mcol : List Int) :
    (labels.map (fun u => List.count u mcol)).sum =
      (mcol.filter (fun x => decide (x ∈ labels))).length := by
  induction mcol with
  | nil => simp
  | cons x xs ih =>
    rw [sum_counts_cons labels h x xs, ih, List.filter_cons]
    by_cases hx : x ∈ labels <;> simp [hx]

/-- C4: the per-column, per-label frequency is the label count over the
in-alphabet row count without missing correction, over the total row count
with it; an absent label has frequency 0; and the spec scenario values for
column 0 of the example matrix come out as 3/4 and 1/4. -/
theorem C4_frequency_semantics (mcol labels : List Int) (v : Int)
    (hnd : labels.Nodup) (hv : v ∈ labels) :
    (freqEntry mcol labels mcol.length false v =
      (mcol.count v : ℚ) / ((mcol.filter (fun x => decide (x ∈ labels))).length : ℚ)) ∧
    (freqEntry mcol labels mcol.length true v =
      (mcol.count v : ℚ) / (mcol.length : ℚ)) ∧
    (v ∉ mcol →
      freqEntry mcol labels mcol.length false v = 0 ∧
      freqEntry mcol labels mcol.length true v = 0) ∧
    freq_cols mat4 [0, 1] false 0 1 = 3 / 4 ∧ freq_cols mat4 [0, 1] false 0 0 = 1 / 4 := by
  refine ⟨?_, ?_, ?_, ?_, ?_⟩
  · rw [freqEntry]
    simp only [Bool.false_eq_true, if_false]
    rw [sum_counts_eq_length_filter labels hnd mcol]
    by_cases hz : (mcol.filter (fun x => decide (x ∈ labels))).length = 0
    · have hcnt : mcol.count v = 0 := by
        have hle : mcol.count v ≤ (labels.map (fun u => List.count u mcol)).sum :=
          List.single_le_sum (fun x _ => Nat.zero_le x) _
            (List.mem_map_of_mem (fun u => List.count u mcol) hv)
        rw [sum_counts_eq_length_filter labels hnd mcol, hz] at hle
        omega
      simp [hz, hcnt]
    · simp [hz]
  · rw [freqEntry]
    simp only [if_true]
    by_cases hz : mcol.length = 0
    · have hmnil : mcol = [] := List.length_eq_zero.mp hz
      subst hmnil
      simp
    · simp [hz]
  · intro hvm
    have hcnt : mcol.count v = 0 := List.count_eq_zero.mpr hvm
    constructor <;> (rw [freqEntry]; split_ifs <;> simp [hcnt])
  · norm_num [freq_cols, freqEntry, colVals, mat4]
  · norm_num [freq_cols, freqEntry, colVals, mat4]

/-- C4 witness: the theorem applied at column 0 of the scenario matrix. -/
theorem C4_frequency_semantics_witness :
    (freqEntry [1, 1, 0, 1] [0, 1] 4 false 1 =
      (List.count 1 [1, 1, 0, 1] : ℚ) /
        (([1, 1, 0, 1].filter (fun x : Int => decide (x ∈ [0, 1]))).length : ℚ)) ∧
    (freqEntry [1, 1, 0, 1] [0, 1] 4 true 1 =
      (List.count 1 [1, 1, 0, 1] : ℚ) / ((4 : ℕ) : ℚ)) ∧
    ((1 : Int) ∉ [1, 1, 0, 1] →
      freqEntry [1, 1, 0, 1] [0, 1] 4 false 1 = 0 ∧
      freqEntry [1, 1, 0, 1] [0, 1] 4 true 1 = 0) ∧
    freq_cols mat4 [0, 1] false 0 1 = 3 / 4 ∧ freq_cols mat4 [0, 1] false 0 0 = 1 / 4 :=
  C4_frequency_semantics [1, 1, 0, 1] [0, 1] 1 (by decide) (by decide)

/-- The two accepted constructor input shapes: a pair of boolean masks or
a pair of integer index arrays. -/
def goodPair : RCInput → RCInput → Bool
  | .boolArr _, .boolArr _ => true
  | .intArr _, .intArr _ => true
  | _, _ => false

/-- The index list an accepted input selects. -/
def selIdx : RCInput → List Nat
  | .boolArr m => nonzeroIdx m
  | .intArr l => l
  | _ => []

/-- Whether a construction attempt produced a bicluster. -/
def okB : Except PyErr Bicluster → Bool
  | .ok _ => true
  | .error _ => false

lemma okB_finishInit (rows cols : List Nat) (d : Option (List (List Int))) :
    okB (finishInit rows cols d) = shapeOk rows.length cols.length d := by
  cases d with
  | none => rfl
  | some d0 =>
    cases hs : shapeOk rows.length cols.length (some d0) <;> simp [finishInit, hs, okB]

/-- C9: construction succeeds exactly on a pair of boolean masks or a pair
of integer index arrays whose optional data matrix passes the shape check
`shape == (n, m) or (len(data) == 0 and n == 0)`; every mixed or mistyped
pair is rejected with `ValueError` or `AttributeError` before any
bicluster is built. -/
theorem C9_construction_boundary (r c : RCInput) (d : Option (List (List Int))) :
    (okB (mkBicluster r c d) =
      (goodPair r c && shapeOk (selIdx r).length (selIdx c).length d)) ∧
    (goodPair r c = false →
      mkBicluster r c d = .error PyErr.valueError ∨
        mkBicluster r c d = .error PyErr.attributeError) := by
  cases r <;> cases c <;>
    first
      | exact ⟨okB_finishInit _ _ _, fun h => Bool.noConfusion h⟩
      | exact ⟨rfl, fun _ => Or.inl rfl⟩
      | exact ⟨rfl, fun _ => Or.inr rfl⟩

/-- C9 witness: the theorem applied at a mistyped pair (non-array rows,
integer-array cols), which `__init__` rejects before building state. -/
theorem C9_construction_boundary_witness :
    mkBicluster RCInput.nonArray (RCInput.intArr [0]) none = .error PyErr.valueError ∨
    mkBicluster RCInput.nonArray (RCInput.intArr [0]) none = .error PyErr.attributeError :=
  (C9_construction_boundary RCInput.nonArray (RCInput.intArr [0]) none).2 (by decide)

/-- C3 counterexample: on the spec scenario, the code assigns
`sf(2, 4, 3/4) = P(X > 2) = 189/256`, while the claimed tail
`P(X >= 2)` is `243/256`, so the claim fails as stated. -/
theorem C3_sf_not_at_least_tail :
    run_constant_freq_column mat4 [0, 1] false [bicScen] =
      .ok [{ bicScen with pvalue := some (189 / 256) }] ∧
    specBinomTailGe bicScen.rows.length mat4.length (3 / 4) = 243 / 256 ∧
    ((189 : ℚ) / 256) ≠ 243 / 256 := by
  refine ⟨?_, ?_, by norm_num⟩
  · norm_num [run_constant_freq_column, jointP, jointPAux, bicScen, freq_cols, freqEntry,
      colVals, mat4, binomSf, binomPmf, Finset.sum_Icc_succ_top]
  · norm_num [specBinomTailGe, binomPmf, Finset.sum_Icc_succ_top, Nat.choose, bicScen, mat4]

/-- C3 amended: every p-value assigned by a successful run equals the
binomial tail `P(X >= |rows| + 1)` (equivalently `P(X > |rows|)`), with
trial count the number of matrix rows and success probability the joint
per-column label probability of that bicluster. -/
theorem C3_pvalue_is_strict_upper_tail (mat : List (List Int)) (labels : List Int)
    (mc : Bool) (bs bs2 : List Bicluster)
    (h : run_constant_freq_column mat labels mc bs = .ok bs2) :
    List.Forall₂ (fun b b2 => ∃ p, jointP mat labels mc b = .ok p ∧
      b2.pvalue = some (∑ i in Finset.Icc (b.rows.length + 1) mat.length,
        (mat.length.choose i : ℚ) * p ^ i * (1 - p) ^ (mat.length - i))) bs bs2 := by
  induction bs generalizing bs2 with
  | nil =>
    rw [run_constant_freq_column] at h
    cases h
    exact List.Forall₂.nil
  | cons bic rest ih =>
    rw [run_constant_freq_column] at h
    cases hj : jointP mat labels mc bic with
    | error e =>
      rw [hj] at h
      cases h
    | ok p =>
      rw [hj] at h
      cases hr : run_constant_freq_column mat labels mc rest with
      | error e =>
        rw [hr] at h
        cases h
      | ok rest2 =>
        rw [hr] at h
        cases h
        exact List.Forall₂.cons ⟨p, hj, by simp [binomSf, binomPmf]⟩ (ih rest2 hr)

/-- C3 amended witness: the theorem applied to the scenario run, whose
sole p-value is `189/256 = P(X >= 3)` for 4 trials at `p = 3/4`. -/
theorem C3_pvalue_is_strict_upper_tail_witness :
    List.Forall₂ (fun b b2 => ∃ p, jointP mat4 [0, 1] false b = .ok p ∧
      b2.pvalue = some (∑ i in Finset.Icc (b.rows.length + 1) mat4.length,
        (mat4.length.choose i : ℚ) * p ^ i * (1 - p) ^ (mat4.length - i)))
      [bicScen] [{ bicScen with pvalue := some (189 / 256) }] :=
  C3_pvalue_is_strict_upper_tail mat4 [0, 1] false [bicScen] _
    (by norm_num [run_constant_freq_column, jointP, jointPAux, bicScen, freq_cols, freqEntry,
      colVals, mat4, binomSf, binomPmf, Finset.sum_Icc_succ_top])

/-- Whether a collection run produced an annotated collection. -/
def okRun : Except PyErr (List Bicluster) → Bool
  | .ok _ => true
  | .error _ => false

lemma jointP_no_data (mat : List (List Int)) (labels : List Int) (mc : Bool)
    (bic : Bicluster) (hc : bic.cols ≠ []) (hd : bic.data = none) :
    jointP mat labels mc bic = .error PyErr.attributeError := by
  cases hcols : bic.cols with
  | nil => exact absurd hcols hc
  | cons c0 cs => rw [jointP, hcols, hd, jointPAux]

lemma jointP_empty_data (mat : List (List Int)) (labels : List Int) (mc : Bool)
    (bic : Bicluster) (hc : bic.cols ≠ []) (hd : bic.data = some []) :
    jointP mat labels mc bic = .error PyErr.indexError := by
  cases hcols : bic.cols with
  | nil => exact absurd hcols hc
  | cons c0 cs => rw [jointP, hcols, hd, jointPAux, List.head?]

/-- C10 counterexample: a member that was never given a data submatrix but
has empty cols is scored without touching `data` and without raising: the
run succeeds, so the code does not raise on every member violating the
materialized-data precondition. -/
theorem C10_empty_cols_member_not_raised :
    Bicluster.data { rows := [0], cols := [] } = none ∧
    run_constant_freq_column mat4 [0, 1] false [{ rows := [0], cols := [] }] =
      .ok [{ rows := [0], cols := [], data := none, pvalue := some 1 }] := by
  refine ⟨rfl, ?_⟩
  norm_num [run_constant_freq_column, jointP, jointPAux, binomSf, binomPmf,
    Finset.sum_Icc_succ_top, mat4]

/-- C10 amended: constructing with `data=None` leaves the data attribute
unset; and the engine raises `AttributeError` (data unset) or `IndexError`
(data with no rows) on any member with non-empty cols that violates the
materialized-data precondition, so a run over a collection containing such
a member never succeeds. -/
theorem C10_materialized_data_precondition :
    (∀ r c bic, mkBicluster r c none = .ok bic → bic.data = none) ∧
    (∀ mat labels mc post bic, bic.cols ≠ [] → bic.data = none →
      run_constant_freq_column mat labels mc (bic :: post) = .error PyErr.attributeError) ∧
    (∀ mat labels mc post bic, bic.cols ≠ [] → bic.data = some [] →
      run_constant_freq_column mat labels mc (bic :: post) = .error PyErr.indexError) ∧
    (∀ mat labels mc pre post bic, bic.cols ≠ [] →
      (bic.data = none ∨ bic.data = some []) →
      okRun (run_constant_freq_column mat labels mc (pre ++ bic :: post)) = false) := by
  have h2 : ∀ mat labels mc post bic, bic.cols ≠ [] → bic.data = none →
      run_constant_freq_column mat labels mc (bic :: post) = .error PyErr.attributeError := by
    intro mat labels mc post bic hc hd
    rw [run_constant_freq_column, jointP_no_data mat labels mc bic hc hd]
  have h3 : ∀ mat labels mc post bic, bic.cols ≠ [] → bic.data = some [] →
      run_constant_freq_column mat labels mc (bic :: post) = .error PyErr.indexError := by
    intro mat labels mc post bic hc hd
    rw [run_constant_freq_column, jointP_empty_data mat labels mc bic hc hd]
  refine ⟨?_, h2, h3, ?_⟩
  · intro r c bic h
    cases r <;> cases c <;> simp only [mkBicluster, finishInit] at h <;>
      (cases h; try rfl)
  · intro mat labels mc pre post bic hc hd
    induction pre with
    | nil =>
      rcases hd with hd | hd
      · rw [List.nil_append, h2 mat labels mc post bic hc hd]
        rfl
      · rw [List.nil_append, h3 mat labels mc post bic hc hd]
        rfl
    | cons x xs ih =>
      rw [List.cons_append, run_constant_freq_column]
      cases hj : jointP mat labels mc x with
      | error e => rfl
      | ok p =>
        cases hr : run_constant_freq_column mat labels mc (xs ++ bic :: post) with
        | error e => rfl
        | ok rest2 =>
          rw [hr] at ih
          cases ih

/-- C10 amended witness: the theorem applied at a concrete violating
member with non-empty cols, placed in a one-member collection. -/
theorem C10_materialized_data_precondition_witness :
    run_constant_freq_column mat4 [0, 1] false [{ rows := [0], cols := [0] }] =
      .error PyErr.attributeError :=
  C10_materialized_data_precondition.2.1 mat4 [0, 1] false []
    { rows := [0], cols := [0] } (by decide) rfl

